import Mathlib

/-!
Verification of the UNet training/metrics pipeline
(`src/unet/metrics.py`, `src/unet/train.py`).

Tensors are embedded as (nested) lists over `ℚ`; machine floats are
modelled by exact rational arithmetic, and the float value `NaN`
(mean of an empty tensor, 0/0) is modelled by `Option` where a claim
depends on it.  Rational constants are written with `mkRat` so that
they reduce inside the kernel; lemmas right below each one restate
them as the fraction appearing in the source.
-/

namespace UNet

/-! ### `src/unet/metrics.py` -/

/-- `SMOOTH = 1e-6` from `metrics.py`. -/
def SMOOTH : ℚ := mkRat 1 1000000

lemma SMOOTH_eq : SMOOTH = 1 / 1000000 := by
  norm_num [SMOOTH, mkRat, Rat.normalize]

/-- The threshold `0.5` used by both binarizations. -/
def half : ℚ := mkRat 1 2

lemma half_eq : half = 1 / 2 := by
  norm_num [half, mkRat, Rat.normalize]

/-- Binarization of a network output logit: the source computes
`outputs.sigmoid() > 0.5`; over exact reals `σ(x) > 1/2 ↔ x > 0`,
so on the logit `x` the binarization is `0 < x`. -/
def binOut (x : ℚ) : Bool := decide (0 < x)

/-- Binarization of a label value: `labels > 0.5`. -/
def binLab (x : ℚ) : Bool := decide (half < x)

/-- A single-channel image plane (`H × W`), one entry per pixel. -/
abbrev Grid := List (List ℚ)

/-- A binarized image plane. -/
abbrev BGrid := List (List Bool)

/-- Pixel count of `outputs & labels`:
`(outputs & labels).float().sum((1, 2))` for one image. -/
def interCount (o l : BGrid) : ℕ :=
  (List.zipWith (fun r s => (List.zipWith and r s).count true) o l).sum

/-- Pixel count of `outputs | labels`:
`(outputs | labels).float().sum((1, 2))` for one image. -/
def unionCount (o l : BGrid) : ℕ :=
  (List.zipWith (fun r s => (List.zipWith or r s).count true) o l).sum

/-- The smoothed ratio `(intersection + SMOOTH) / (union + SMOOTH)`
for one image. -/
def smoothIoU (o l : BGrid) : ℚ :=
  ((interCount o l : ℚ) + SMOOTH) / ((unionCount o l : ℚ) + SMOOTH)

/-- The bucketing step of `iou_pytorch`:
`torch.clamp(20 * (iou - 0.5), 0, 10).ceil() / 10`
(`torch.clamp(v, 0, 10) = min (max v 0) 10`). -/
def bucket (x : ℚ) : ℚ :=
  (Int.ceil (min (max (20 * (x - half)) 0) 10) : ℚ) / 10

/-- Binarize one predicted-logit image plane. -/
def binOutGrid (g : Grid) : BGrid := g.map (fun r => r.map binOut)

/-- Binarize one label image plane. -/
def binLabGrid (g : Grid) : BGrid := g.map (fun r => r.map binLab)

/-- The per-image scores of `iou_pytorch` before the optional `mean`:
binarize each image of the batch, smooth the intersection/union ratio
and bucket it. -/
def iou_scores (outputs labels : List Grid) : List ℚ :=
  List.zipWith (fun o l => bucket (smoothIoU (binOutGrid o) (binLabGrid l)))
    outputs labels

/-- Mean of a list of rationals (`tensor.mean()`). -/
def qmean (xs : List ℚ) : ℚ := xs.sum / xs.length

/-- `iou_pytorch(outputs, labels, reduce)` from `metrics.py`:
with `reduce = false` the per-image scores, with `reduce = true` the
singleton holding their mean. -/
def iou_pytorch (outputs labels : List Grid) (reduce : Bool) : List ℚ :=
  if reduce then [qmean (iou_scores outputs labels)]
  else iou_scores outputs labels

lemma iou_pytorch_false (outputs labels : List Grid) :
    iou_pytorch outputs labels false = iou_scores outputs labels := rfl

lemma iou_pytorch_true (outputs labels : List Grid) :
    iou_pytorch outputs labels true = [qmean (iou_scores outputs labels)] :=
  rfl

/-- Every value of the clamp-and-ceil bucketing is one of the eleven
values `0, 1/10, …, 1`. -/
lemma bucket_mem (x : ℚ) :
    ∃ k : ℕ, k ≤ 10 ∧ bucket x = (k : ℚ) / 10 := by
  have h0 : (0 : ℚ) ≤ min (max (20 * (x - half)) 0) 10 :=
    le_min (le_max_right _ _) (by norm_num)
  have h10 : min (max (20 * (x - half)) 0) 10 ≤ 10 := min_le_right _ _
  have hc0 : 0 ≤ Int.ceil (min (max (20 * (x - half)) 0) 10) :=
    Int.ceil_nonneg h0
  have hc10 : Int.ceil (min (max (20 * (x - half)) 0) 10) ≤ (10 : ℤ) :=
    Int.ceil_le.2 (by exact_mod_cast h10)
  refine ⟨(Int.ceil (min (max (20 * (x - half)) 0) 10)).toNat, by omega, ?_⟩
  unfold bucket
  congr 1
  exact_mod_cast (Int.toNat_of_nonneg hc0).symm

/-- The bucketing lies in `[0, 1]`. -/
lemma bucket_bounds (x : ℚ) : 0 ≤ bucket x ∧ bucket x ≤ 1 := by
  obtain ⟨k, hk, he⟩ := bucket_mem x
  refine ⟨by rw [he]; positivity, ?_⟩
  rw [he, div_le_one (by norm_num)]
  exact_mod_cast by omega

/-- Every element of a `zipWith` satisfies a property the combining
function always satisfies. -/
lemma forall_mem_zipWith {α β γ : Type} {P : γ → Prop} (f : α → β → γ)
    (h : ∀ a b, P (f a b)) :
    ∀ (as : List α) (bs : List β), ∀ x ∈ List.zipWith f as bs, P x := by
  intro as
  induction as with
  | nil => intro bs x hx; simp at hx
  | cons a as ih =>
    intro bs x hx
    cases bs with
    | nil => simp at hx
    | cons b bs =>
      simp only [List.zipWith_cons_cons, List.mem_cons] at hx
      rcases hx with rfl | hx
      · exact h a b
      · exact ih bs x hx

lemma bucket_one : bucket 1 = 1 := by
  unfold bucket
  rw [half_eq]
  have h : min (max (20 * ((1 : ℚ) - 1 / 2)) 0) 10 = 10 := by norm_num
  rw [h, show ((10 : ℚ) = ((10 : ℤ) : ℚ)) from by norm_num, Int.ceil_intCast]
  norm_num

/-- **C1.** For every outputs/labels batch in which, after binarization
(`sigmoid(outputs) > 0.5`, `labels > 0.5`), image `i` has intersection
count 0 and union count 0, the smoothed ratio is exactly
`SMOOTH / SMOOTH`, the denominator is nonzero (no `0/0`, hence no NaN),
and `iou_pytorch` with `reduce = False` reports score `1` for that
image. -/
theorem iou_empty_image_score_one (outputs labels : List Grid) (i : ℕ)
    (o l : Grid) (ho : outputs[i]? = some o) (hl : labels[i]? = some l)
    (hI : interCount (binOutGrid o) (binLabGrid l) = 0)
    (hU : unionCount (binOutGrid o) (binLabGrid l) = 0) :
    smoothIoU (binOutGrid o) (binLabGrid l) = SMOOTH / SMOOTH
      ∧ ((unionCount (binOutGrid o) (binLabGrid l) : ℚ) + SMOOTH) ≠ 0
      ∧ (iou_pytorch outputs labels false)[i]? = some 1 := by
  have hiou : smoothIoU (binOutGrid o) (binLabGrid l) = 1 := by
    unfold smoothIoU
    rw [hI, hU, SMOOTH_eq]
    norm_num
  refine ⟨?_, ?_, ?_⟩
  · rw [hiou, SMOOTH_eq]; norm_num
  · rw [hU, SMOOTH_eq]; norm_num
  · rw [iou_pytorch_false, iou_scores, List.getElem?_zipWith_eq_some]
    refine ⟨o, l, ho, hl, ?_⟩
    show bucket (smoothIoU (binOutGrid o) (binLabGrid l)) = 1
    rw [hiou, bucket_one]

/-- Witness for C1: a one-image batch whose logit is negative and whose
label is zero binarizes to all-false planes; the reported score is 1. -/
theorem iou_empty_image_score_one_witness :
    smoothIoU (binOutGrid ([[-1]] : Grid)) (binLabGrid ([[0]] : Grid))
        = SMOOTH / SMOOTH
      ∧ ((unionCount (binOutGrid ([[-1]] : Grid))
            (binLabGrid ([[0]] : Grid)) : ℚ) + SMOOTH) ≠ 0
      ∧ (iou_pytorch [[[-1]]] [[[0]]] false)[0]? = some 1 :=
  iou_empty_image_score_one [[[-1]]] [[[0]]] 0 [[-1]] [[0]]
    (by decide) (by decide) (by decide) (by decide)

/-- **C2.** The bucketing function `x ↦ ⌈clamp(20(x − 1/2), 0, 10)⌉ / 10`
is monotone non-decreasing (hence non-decreasing over
0.45, 0.50, 0.55, 0.75, 1.0), and every `x ≤ 1/2` maps to bucket `0`. -/
theorem bucket_monotone_and_zero_below_half :
    Monotone bucket ∧ ∀ x : ℚ, x ≤ half → bucket x = 0 := by
  constructor
  · intro a b hab
    unfold bucket
    have harg : min (max (20 * (a - half)) 0) 10
        ≤ min (max (20 * (b - half)) 0) 10 := by
      apply min_le_min _ le_rfl
      apply max_le_max _ le_rfl
      linarith
    have hq : (Int.ceil (min (max (20 * (a - half)) 0) 10) : ℚ)
        ≤ (Int.ceil (min (max (20 * (b - half)) 0) 10) : ℚ) := by
      exact_mod_cast Int.ceil_le_ceil harg
    linarith
  · intro x hx
    unfold bucket
    have h1 : max (20 * (x - half)) 0 = 0 := max_eq_right (by nlinarith)
    rw [h1]
    have h2 : min (0 : ℚ) 10 = 0 := by norm_num
    rw [h2, Int.ceil_zero]
    norm_num

/-- Witness for C2: `bucket` is non-decreasing from 0 to 1 and
`bucket 0 = 0`. -/
theorem bucket_monotone_and_zero_below_half_witness :
    bucket 0 ≤ bucket 1 ∧ bucket 0 = 0 :=
  ⟨bucket_monotone_and_zero_below_half.1 (by decide),
   bucket_monotone_and_zero_below_half.2 0
     (by rw [half_eq]; exact one_half_pos.le)⟩

/-- **C10.** Every per-image score of `iou_pytorch` with `reduce = False`
lies in `[0, 1]` and is `k/10` for some `k ≤ 10`; for a nonempty batch
the `reduce = True` result is the singleton of the mean, which also
lies in `[0, 1]`. -/
theorem iou_scores_bounded_tenths (outputs labels : List Grid) :
    (∀ x ∈ iou_pytorch outputs labels false,
        (0 ≤ x ∧ x ≤ 1) ∧ ∃ k : ℕ, k ≤ 10 ∧ x = (k : ℚ) / 10)
      ∧ (outputs ≠ [] → labels ≠ [] →
          iou_pytorch outputs labels true = [qmean (iou_scores outputs labels)]
            ∧ 0 ≤ qmean (iou_scores outputs labels)
            ∧ qmean (iou_scores outputs labels) ≤ 1) := by
  have hall : ∀ x ∈ iou_scores outputs labels,
      (0 ≤ x ∧ x ≤ 1) ∧ ∃ k : ℕ, k ≤ 10 ∧ x = (k : ℚ) / 10 :=
    forall_mem_zipWith _ (fun a b => ⟨bucket_bounds _, bucket_mem _⟩)
      outputs labels
  constructor
  · rw [iou_pytorch_false]; exact hall
  · intro ho hl
    refine ⟨iou_pytorch_true _ _, ?_, ?_⟩
    · exact div_nonneg
        (List.sum_nonneg (fun x hx => ((hall x hx).1).1)) (by positivity)
    · have hlen : 0 < (iou_scores outputs labels).length := by
        rw [iou_scores, List.length_zipWith]
        rcases outputs with _ | ⟨a, as⟩
        · exact absurd rfl ho
        rcases labels with _ | ⟨b, bs⟩
        · exact absurd rfl hl
        simp
      have hsum1 : (iou_scores outputs labels).sum
          ≤ ((iou_scores outputs labels).length : ℚ) := by
        have := List.sum_le_card_nsmul (iou_scores outputs labels) 1
          (fun x hx => ((hall x hx).1).2)
        simpa using this
      rw [qmean, div_le_one (by exact_mod_cast hlen)]
      exact hsum1

/-- Witness for C10: a concrete one-image batch. -/
theorem iou_scores_bounded_tenths_witness :
    (∀ x ∈ iou_pytorch [[[1]]] [[[1]]] false,
        (0 ≤ x ∧ x ≤ 1) ∧ ∃ k : ℕ, k ≤ 10 ∧ x = (k : ℚ) / 10)
      ∧ (iou_pytorch [[[1]]] [[[1]]] true
            = [qmean (iou_scores [[[1]]] [[[1]]])]
          ∧ 0 ≤ qmean (iou_scores [[[1]]] [[[1]]])
          ∧ qmean (iou_scores [[[1]]] [[[1]]]) ≤ 1) :=
  ⟨(iou_scores_bounded_tenths [[[1]]] [[[1]]]).1,
   (iou_scores_bounded_tenths [[[1]]] [[[1]]]).2
     (List.cons_ne_nil _ _) (List.cons_ne_nil _ _)⟩

/-! ### `src/unet/train.py`

The trainer calls `process_batch_torch_wrap` / `process_patches`
(`projections.py`), `special_accuracy` and the mAP helpers (the part of
`metrics.py` beyond `iou_pytorch`); those files are not under `src/`,
so their outputs are modelled from the spec (§3, §4.3, §4.4, §4.6) and
the trainer's control flow around them is embedded from `train.py`
itself. -/

/-- Per-patch classifier logits (one score per category). -/
abbrev Logits := List ℚ

/-- Modelled from the spec: one region record produced by
`process_batch_torch_wrap` (§3 "Region record", §4.4): a patch, its
rectangle `(x, y, w, h)`, its matched true class (`proj_class` entry:
a category id `≥ 0`, or a negative unmatched/background sentinel) and
its owning image index.  Keeping the record as one structure bakes in
the spec's parallel-array invariant (patch count = rectangle count =
class count). -/
structure RegionRec (α : Type) where
  patch : α
  rect : ℕ × ℕ × ℕ × ℕ
  cls : ℤ
  imgIdx : ℕ

/-- Modelled from the spec: the output of `process_batch_torch_wrap`
for one batch: the flat region records, and `true_pred_map` — per
ground-truth region, the index of a matching predicted rectangle or a
negative value when no prediction matched it (§4.3 "found"
indicator). -/
structure ProjOut (α : Type) where
  regions : List (RegionRec α)
  truePredMap : List ℤ

/-- The flat patch batch of a projection result. -/
def ProjOut.patchList {α : Type} (po : ProjOut α) : List α :=
  po.regions.map (·.patch)

/-- The flat `proj_class` vector of a projection result. -/
def ProjOut.clsList {α : Type} (po : ProjOut α) : List ℤ :=
  po.regions.map (·.cls)

/-- Boolean-mask selection `xs[classes >= 0]` over parallel arrays. -/
def maskSel {γ : Type} (xs : List γ) (classes : List ℤ) : List γ :=
  ((xs.zip classes).filter (fun p => decide (0 ≤ p.2))).map (·.1)

/-- `proj_class[proj_class >= 0]`. -/
def matchedClasses (classes : List ℤ) : List ℤ :=
  classes.filter (fun c => decide (0 ≤ c))

/-- `(proj_class >= 0).sum() > 0`: at least one extracted region was
matched to a real category. -/
def anyMatched (classes : List ℤ) : Bool :=
  classes.any (fun c => decide (0 ≤ c))

/-- Index of the first maximal entry (`argmax(1)` for one row). -/
def argmaxIdx (l : List ℚ) : ℕ :=
  (l.foldl
    (fun (acc : ℕ × ℕ × Option ℚ) x =>
      match acc with
      | (i, _, none) => (i + 1, i, some x)
      | (i, bi, some v) =>
          if v < x then (i + 1, i, some x) else (i + 1, bi, some v))
    (0, 0, none)).2.1

/-- Modelled from the spec: `special_accuracy` (imported from
`.metrics`, absent from `src/`) — classification accuracy restricted
to matched regions (§4.6: "on matched regions only — unmatched /
background regions are excluded from this metric, never counted as
correct or incorrect"): the fraction of regions carrying a real
category id whose argmax logit equals that id.  The mean over an empty
set of matched regions is undefined (`none`, float `NaN`). -/
def special_accuracy (preds : List Logits) (classes : List ℤ) : Option ℚ :=
  let pairs := (preds.zip classes).filter (fun p => decide (0 ≤ p.2))
  if pairs.isEmpty then none
  else some
    ((pairs.countP (fun p => decide ((argmaxIdx p.1 : ℤ) = p.2)) : ℚ)
      / pairs.length)

/-- `(true_pred_map >= 0).float().mean()` — the `metric_found_rects`
value of `train.py` (lines 189-192, 279-282, 359-362). -/
def foundRectsMetric (tpm : List ℤ) : ℚ :=
  ((tpm.countP (fun c => decide (0 ≤ c)) : ℕ) : ℚ) / tpm.length

/-- Number of ground-truth regions that received a matching predicted
rectangle. -/
def matchedGTCount (tpm : List ℤ) : ℕ := tpm.countP (fun c => decide (0 ≤ c))

/-- Number of ground-truth regions with no matching prediction. -/
def unmatchedGTCount (tpm : List ℤ) : ℕ := tpm.countP (fun c => decide (c < 0))

/-- The chunked classifier invocation of `val_epoch` / `calc_metrics`
(`for start in range(0, len(patches), 32): ...proj_model(patches[start:
start+32])...; torch.cat`): apply `f` to consecutive 32-element slices
and concatenate the results in order. -/
def chunkedApply {α β : Type} (f : List α → List β) : List α → List β
  | [] => []
  | x :: xs => f ((x :: xs).take 32) ++ chunkedApply f ((x :: xs).drop 32)
termination_by l => l.length
decreasing_by
  simp only [List.length_drop, List.length_cons]
  omega

/-- Number of sub-batches (classifier invocations) of the chunked
loop. -/
def chunkCalls {α : Type} : List α → ℕ
  | [] => 0
  | x :: xs => 1 + chunkCalls ((x :: xs).drop 32)
termination_by l => l.length
decreasing_by
  simp only [List.length_drop, List.length_cons]
  omega

/-- Everything one batch-body iteration reports, as far as the claims
are concerned. -/
structure StepOut where
  notEnoughRects : Bool
  classifierCalls : ℕ
  totalLoss : ℚ
  projLoss : ℚ
  projAcc : Option ℚ
  foundRects : ℚ
  vocComputed : Bool

/-- The batch body of `Trainer.train_epoch` (train.py 146-201): when
the projection yields no patches, `not_enough_rects` is set, the
classifier is never invoked, losses stay at the segmentation loss,
`metric_proj_acc` is reported as 0 and the VOC block is skipped.
Otherwise the classifier is invoked once on the whole patch batch; the
cross-entropy `ce` over the `proj_class >= 0` selection is added to the
loss only when some region is matched, and `special_accuracy` is
applied to the `proj_class >= 0` selection with no emptiness guard. -/
def trainStep {α : Type} (g : α → Logits)
    (ce : List Logits → List ℤ → ℚ) (segLoss : ℚ) (po : ProjOut α) :
    StepOut :=
  if po.regions.isEmpty then
    { notEnoughRects := true
      classifierCalls := 0
      totalLoss := segLoss
      projLoss := 0
      projAcc := some 0
      foundRects := foundRectsMetric po.truePredMap
      vocComputed := false }
  else
    let cls := po.clsList
    let projOut := po.regions.map (fun r => g r.patch)
    let pl := if anyMatched cls = true
      then ce (maskSel projOut cls) (matchedClasses cls) else 0
    { notEnoughRects := false
      classifierCalls := 1
      totalLoss := if anyMatched cls = true then segLoss + pl else segLoss
      projLoss := pl
      projAcc := special_accuracy (maskSel projOut cls) (matchedClasses cls)
      foundRects := foundRectsMetric po.truePredMap
      vocComputed := true }

/-- The batch body of `Trainer.val_epoch` (train.py 241-292; the same
structure appears in `calc_metrics` 317-362): as `trainStep`, but the
classifier runs over 32-element sub-batches, and `metric_proj_acc` is
reported as 0 both when there are no rectangles and when no region is
matched, `special_accuracy` receiving the unfiltered arrays
otherwise. -/
def valStep {α : Type} (g : α → Logits)
    (ce : List Logits → List ℤ → ℚ) (segLoss : ℚ) (po : ProjOut α) :
    StepOut :=
  if po.regions.isEmpty then
    { notEnoughRects := true
      classifierCalls := 0
      totalLoss := segLoss
      projLoss := 0
      projAcc := some 0
      foundRects := foundRectsMetric po.truePredMap
      vocComputed := false }
  else
    let cls := po.clsList
    let projOut := chunkedApply (fun b => b.map g) po.patchList
    let pl := if anyMatched cls = true
      then ce (maskSel projOut cls) (matchedClasses cls) else 0
    { notEnoughRects := false
      classifierCalls := chunkCalls po.patchList
      totalLoss := if anyMatched cls = true then segLoss + pl else segLoss
      projLoss := pl
      projAcc := if anyMatched cls = true
        then special_accuracy projOut cls else some 0
      foundRects := foundRectsMetric po.truePredMap
      vocComputed := true }

/-- Applying a per-patch function over 32-element chunks and
concatenating is the same as one pass over the whole list. -/
lemma chunkedApply_map {α β : Type} (g : α → β) : ∀ xs : List α,
    chunkedApply (fun b => b.map g) xs = xs.map g
  | [] => by simp [chunkedApply]
  | x :: xs => by
    rw [chunkedApply]
    rw [chunkedApply_map g ((x :: xs).drop 32)]
    rw [← List.map_append, List.take_append_drop]
termination_by xs => xs.length
decreasing_by
  simp only [List.length_drop, List.length_cons]
  omega

/-- **C6.** For every patch sequence and every deterministic per-patch
classifier `g` (the spec's `classify(patch_batch) -> class_logits`
interface applied row-wise), classifying consecutive 32-element
sub-batches and concatenating the per-chunk outputs yields exactly the
per-patch logits of a single pass, in the same order. -/
theorem chunked_classification_equiv {α β : Type} (g : α → β)
    (patches : List α) :
    chunkedApply (fun b => b.map g) patches = patches.map g :=
  chunkedApply_map g patches

/-- **C3.** For every batch whose projection yields zero rectangles,
both epoch bodies set `not_enough_rects`, never invoke the patch
classifier, skip the VOC AP computation, and report
`metric_proj_acc = 0`. -/
theorem empty_batch_short_circuit {α : Type} (g : α → Logits)
    (ce : List Logits → List ℤ → ℚ) (segLoss : ℚ) (po : ProjOut α)
    (h : po.regions = []) :
    (trainStep g ce segLoss po).notEnoughRects = true
      ∧ (trainStep g ce segLoss po).classifierCalls = 0
      ∧ (trainStep g ce segLoss po).vocComputed = false
      ∧ (trainStep g ce segLoss po).projAcc = some 0
      ∧ (valStep g ce segLoss po).notEnoughRects = true
      ∧ (valStep g ce segLoss po).classifierCalls = 0
      ∧ (valStep g ce segLoss po).vocComputed = false
      ∧ (valStep g ce segLoss po).projAcc = some 0 := by
  simp [trainStep, valStep, h]

/-- Witness for C3: the empty projection result. -/
theorem empty_batch_short_circuit_witness :
    (trainStep (fun _ : ℕ => ([] : Logits)) (fun _ _ => 0) 0
        ⟨[], []⟩).notEnoughRects = true
      ∧ (trainStep (fun _ : ℕ => ([] : Logits)) (fun _ _ => 0) 0
          ⟨[], []⟩).classifierCalls = 0
      ∧ (trainStep (fun _ : ℕ => ([] : Logits)) (fun _ _ => 0) 0
          ⟨[], []⟩).vocComputed = false
      ∧ (trainStep (fun _ : ℕ => ([] : Logits)) (fun _ _ => 0) 0
          ⟨[], []⟩).projAcc = some 0
      ∧ (valStep (fun _ : ℕ => ([] : Logits)) (fun _ _ => 0) 0
          ⟨[], []⟩).notEnoughRects = true
      ∧ (valStep (fun _ : ℕ => ([] : Logits)) (fun _ _ => 0) 0
          ⟨[], []⟩).classifierCalls = 0
      ∧ (valStep (fun _ : ℕ => ([] : Logits)) (fun _ _ => 0) 0
          ⟨[], []⟩).vocComputed = false
      ∧ (valStep (fun _ : ℕ => ([] : Logits)) (fun _ _ => 0) 0
          ⟨[], []⟩).projAcc = some 0 :=
  empty_batch_short_circuit _ _ _ _ rfl

/-- **C9.** In both epoch bodies the total loss is the segmentation
loss plus the recorded projection loss, and the projection loss is the
cross-entropy over the `proj_class >= 0` selection when some extracted
region carries a non-sentinel class, and 0 otherwise (in particular
when there are no rectangles at all). -/
theorem loss_decomposition {α : Type} (g : α → Logits)
    (ce : List Logits → List ℤ → ℚ) (segLoss : ℚ) (po : ProjOut α) :
    ((trainStep g ce segLoss po).totalLoss
        = segLoss + (trainStep g ce segLoss po).projLoss)
      ∧ ((trainStep g ce segLoss po).projLoss
          = if anyMatched po.clsList = true
            then ce (maskSel (po.regions.map (fun r => g r.patch))
                po.clsList) (matchedClasses po.clsList)
            else 0)
      ∧ ((valStep g ce segLoss po).totalLoss
          = segLoss + (valStep g ce segLoss po).projLoss)
      ∧ ((valStep g ce segLoss po).projLoss
          = if anyMatched po.clsList = true
            then ce (maskSel (chunkedApply (fun b => b.map g)
                po.patchList) po.clsList) (matchedClasses po.clsList)
            else 0) := by
  rcases po with ⟨regions, tpm⟩
  rcases regions with _ | ⟨r, rs⟩
  · simp [trainStep, valStep, ProjOut.clsList, anyMatched]
  · by_cases hm : anyMatched (ProjOut.clsList ⟨r :: rs, tpm⟩) = true
    · simp [trainStep, valStep, hm]
    · rw [Bool.not_eq_true] at hm
      simp [trainStep, valStep, hm]

/-- Counterexample to C5 as stated: in `train_epoch` a batch with one
extracted rectangle whose class is the unmatched sentinel `-1` reaches
`special_accuracy` with empty filtered arrays, so `metric_proj_acc` is
the undefined mean (`NaN`), not the neutral value 0. -/
theorem train_acc_unmatched_counterexample :
    (trainStep (fun _ : ℕ => ([1] : Logits)) (fun _ _ => 0) 0
        (ProjOut.mk [⟨0, (0, 0, 1, 1), -1, 0⟩] [-1])).projAcc
      ≠ some 0 := by
  decide

lemma matchedClasses_eq_nil {classes : List ℤ}
    (h : anyMatched classes = false) : matchedClasses classes = [] := by
  rw [matchedClasses, List.filter_eq_nil_iff]
  rw [anyMatched, List.any_eq_false] at h
  exact h

/-- **C5 (amended).** `special_accuracy` ignores regions carrying the
unmatched sentinel (appending such a region leaves the metric
unchanged, so sentinel regions count neither as correct nor as
incorrect), and for a batch with rectangles none of which is matched,
`val_epoch` (and `calc_metrics`) report `metric_proj_acc = 0` while
`train_epoch` evaluates the accuracy over an empty set of matched
regions, which is the undefined mean (`NaN`), not 0. -/
theorem proj_acc_matched_only {α : Type} (g : α → Logits)
    (ce : List Logits → List ℤ → ℚ) (segLoss : ℚ) (po : ProjOut α)
    (preds : List Logits) (classes : List ℤ) (p : Logits) (c : ℤ)
    (hlen : preds.length = classes.length) (hc : c < 0) :
    special_accuracy (preds ++ [p]) (classes ++ [c])
        = special_accuracy preds classes
      ∧ (po.regions ≠ [] → anyMatched po.clsList = false →
          (valStep g ce segLoss po).projAcc = some 0
            ∧ (trainStep g ce segLoss po).projAcc = none) := by
  constructor
  · have hcd : (decide ((0 : ℤ) ≤ c)) = false := by
      simp [hc, not_le.2 hc]
    have hpair : ([p].zip [c]) = [(p, c)] := rfl
    have hone : List.filter (fun q : Logits × ℤ => decide (0 ≤ q.2))
        [(p, c)] = [] := by
      simp [hcd]
    unfold special_accuracy
    rw [List.zip_append hlen, hpair, List.filter_append, hone,
      List.append_nil]
  · intro hne hnm
    have hemp : po.regions.isEmpty = false := by
      simp [List.isEmpty_iff, hne]
    constructor
    · simp [valStep, hemp, hnm]
    · have hmc : matchedClasses po.clsList = [] := matchedClasses_eq_nil hnm
      simp [trainStep, hemp, hnm, hmc, special_accuracy]

/-- Witness for C5 (amended): one logit row appended with sentinel
class `-1`, and a concrete one-rectangle unmatched batch. -/
theorem proj_acc_matched_only_witness :
    (special_accuracy ([[1]] ++ [[2]]) ([0] ++ [-1])
        = special_accuracy [[1]] [0])
      ∧ ((valStep (fun _ : ℕ => ([1] : Logits)) (fun _ _ => 0) 0
            (ProjOut.mk [⟨0, (0, 0, 1, 1), -1, 0⟩] [-1])).projAcc = some 0
          ∧ (trainStep (fun _ : ℕ => ([1] : Logits)) (fun _ _ => 0) 0
              (ProjOut.mk [⟨0, (0, 0, 1, 1), -1, 0⟩] [-1])).projAcc
            = none) :=
  ⟨(proj_acc_matched_only (fun _ : ℕ => ([1] : Logits)) (fun _ _ => 0) 0
      (ProjOut.mk [⟨0, (0, 0, 1, 1), -1, 0⟩] [-1]) [[1]] [0] [2] (-1)
      (by decide) (by decide)).1,
   (proj_acc_matched_only (fun _ : ℕ => ([1] : Logits)) (fun _ _ => 0) 0
      (ProjOut.mk [⟨0, (0, 0, 1, 1), -1, 0⟩] [-1]) [[1]] [0] [2] (-1)
      (by decide) (by decide)).2 (List.cons_ne_nil _ _) (by decide)⟩

lemma trainStep_foundRects {α : Type} (g : α → Logits)
    (ce : List Logits → List ℤ → ℚ) (segLoss : ℚ) (po : ProjOut α) :
    (trainStep g ce segLoss po).foundRects
      = foundRectsMetric po.truePredMap := by
  unfold trainStep
  split <;> rfl

lemma valStep_foundRects {α : Type} (g : α → Logits)
    (ce : List Logits → List ℤ → ℚ) (segLoss : ℚ) (po : ProjOut α) :
    (valStep g ce segLoss po).foundRects
      = foundRectsMetric po.truePredMap := by
  unfold valStep
  split <;> rfl

/-- **C4.** For every batch with at least one ground-truth region, the
reported `metric_found_rects` equals the fraction of ground-truth
regions that received a matching predicted rectangle, where the
denominator counts matched and unmatched ground-truth regions alike
(unmatched regions are counted as not-found, not dropped). -/
theorem found_rate_counts_unmatched {α : Type} (g : α → Logits)
    (ce : List Logits → List ℤ → ℚ) (segLoss : ℚ) (po : ProjOut α)
    (h : po.truePredMap ≠ []) :
    (trainStep g ce segLoss po).foundRects
        = (matchedGTCount po.truePredMap : ℚ)
          / ((matchedGTCount po.truePredMap : ℚ)
              + (unmatchedGTCount po.truePredMap : ℚ))
      ∧ (valStep g ce segLoss po).foundRects
        = (matchedGTCount po.truePredMap : ℚ)
          / ((matchedGTCount po.truePredMap : ℚ)
              + (unmatchedGTCount po.truePredMap : ℚ))
      ∧ matchedGTCount po.truePredMap + unmatchedGTCount po.truePredMap
          = po.truePredMap.length := by
  have hsplit : matchedGTCount po.truePredMap
      + unmatchedGTCount po.truePredMap = po.truePredMap.length := by
    unfold matchedGTCount unmatchedGTCount
    induction po.truePredMap with
    | nil => rfl
    | cons a l ih =>
      by_cases ha : (0 : ℤ) ≤ a
      · have h1 : (decide ((0 : ℤ) ≤ a)) = true := by simp [ha]
        have h2 : (decide (a < 0)) = false := by simp [not_lt.2 ha]
        simp [List.countP_cons, h1, h2]
        omega
      · have h1 : (decide ((0 : ℤ) ≤ a)) = false := by simp [ha]
        have h2 : (decide (a < 0)) = true := by simp [lt_of_not_ge ha]
        simp [List.countP_cons, h1, h2]
        omega
  have hfm : foundRectsMetric po.truePredMap
      = (matchedGTCount po.truePredMap : ℚ)
        / ((matchedGTCount po.truePredMap : ℚ)
            + (unmatchedGTCount po.truePredMap : ℚ)) := by
    rw [foundRectsMetric, ← hsplit]
    push_cast
    rfl
  exact ⟨by rw [trainStep_foundRects, hfm],
    by rw [valStep_foundRects, hfm], hsplit⟩

/-- Witness for C4: two ground-truth regions, one matched (predicted
rectangle index 0), one unmatched (`-1`). -/
theorem found_rate_counts_unmatched_witness :
    (trainStep (fun _ : ℕ => ([1] : Logits)) (fun _ _ => 0) 0
        (ProjOut.mk [] [0, -1])).foundRects
        = (matchedGTCount [0, -1] : ℚ)
          / ((matchedGTCount [0, -1] : ℚ) + (unmatchedGTCount [0, -1] : ℚ))
      ∧ (valStep (fun _ : ℕ => ([1] : Logits)) (fun _ _ => 0) 0
          (ProjOut.mk [] [0, -1])).foundRects
        = (matchedGTCount [0, -1] : ℚ)
          / ((matchedGTCount [0, -1] : ℚ) + (unmatchedGTCount [0, -1] : ℚ))
      ∧ matchedGTCount [0, -1] + unmatchedGTCount [0, -1]
          = (([0, -1] : List ℤ)).length :=
  found_rate_counts_unmatched (fun _ : ℕ => ([1] : Logits)) (fun _ _ => 0) 0
    (ProjOut.mk [] [0, -1]) (List.cons_ne_nil _ _)

/-! ### The `BoundingBoxes` store of `calc_metrics` (C7)

`calc_metrics` (train.py 306-388) creates a fresh local
`boxes = BoundingBoxes()` per call and, per batch, passes
`relative_index=len(boxes)` to `maP_create_boxes` before appending the
created boxes.  `maP_create_boxes` itself is part of the repository's
`metrics.py` that is absent from `src/`. -/

/-- One batch as seen by the box store: the number of images in the
batch, and the within-batch image index each created box is tagged
with. -/
structure BoxBatch where
  bsize : ℕ
  idxs : List ℕ

/-- Modelled from the spec: `maP_create_boxes` offsets the within-batch
image index of every box it creates by the supplied running offset
(`relative_index`, §4.5), and `calc_metrics` passes the current store
size `len(boxes)` as that offset.  `passIdsAux off batches` returns,
per batch, the image ids of the boxes the batch appends to a store
already holding `off` boxes. -/
def passIdsAux (off : ℕ) : List BoxBatch → List (List ℕ)
  | [] => []
  | b :: bs =>
      (b.idxs.map (fun i => off + i)) :: passIdsAux (off + b.idxs.length) bs

/-- One evaluation pass: the store starts freshly empty
(`boxes = BoundingBoxes()` is local to the call), so the running
offset starts at 0. -/
def passIds (bs : List BoxBatch) : List (List ℕ) := passIdsAux 0 bs

/-- Counterexample to C7 as stated: a first batch of two images where
only image 1 yields one box (image id `0 + 1 = 1`, store size becomes
1), followed by a batch where image 0 yields a box (image id
`1 + 0 = 1`): boxes from different batches share image id 1. -/
theorem image_id_collision_counterexample :
    ¬ List.Pairwise (fun A B => ∀ x ∈ A, ∀ y ∈ B, x ≠ y)
        (passIds [⟨2, [1]⟩, ⟨2, [0]⟩]) := by
  have he : passIds [⟨2, [1]⟩, ⟨2, [0]⟩] = [[1], [1]] := rfl
  rw [he]
  intro h
  exact (List.pairwise_cons.mp h).1 [1] (by simp) 1 (by simp) 1 (by simp) rfl

/-- Every id a later batch produces is at least the running offset. -/
lemma passIdsAux_lb : ∀ (bs : List BoxBatch) (off : ℕ),
    ∀ A ∈ passIdsAux off bs, ∀ x ∈ A, off ≤ x
  | [], _ => by simp [passIdsAux]
  | b :: bs, off => by
    intro A hA x hx
    simp only [passIdsAux, List.mem_cons] at hA
    rcases hA with rfl | hA
    · obtain ⟨i, _, rfl⟩ := List.mem_map.mp hx
      omega
    · have := passIdsAux_lb bs (off + b.idxs.length) A hA x hx
      omega

lemma passIdsAux_pairwise : ∀ (bs : List BoxBatch) (off : ℕ),
    (∀ b ∈ bs, b.bsize ≤ b.idxs.length) →
    (∀ b ∈ bs, ∀ i ∈ b.idxs, i < b.bsize) →
    List.Pairwise (fun A B => ∀ x ∈ A, ∀ y ∈ B, x ≠ y)
      (passIdsAux off bs)
  | [], _, _, _ => by simp [passIdsAux]
  | b :: bs, off, hb, hidx => by
    simp only [passIdsAux]
    constructor
    · intro B hB x hx y hy
      obtain ⟨i, hi, rfl⟩ := List.mem_map.mp hx
      have hib : i < b.bsize := hidx b (by simp) i hi
      have hbs : b.bsize ≤ b.idxs.length := hb b (by simp)
      have hy2 : off + b.idxs.length ≤ y := passIdsAux_lb bs _ B hB y hy
      omega
    · exact passIdsAux_pairwise bs (off + b.idxs.length)
        (fun x hx => hb x (List.mem_cons_of_mem _ hx))
        (fun x hx => hidx x (List.mem_cons_of_mem _ hx))

/-- **C7 (amended).** Every evaluation pass starts from a freshly empty
store (offset 0, `passIds`), and with the running offset
`relative_index = len(boxes)` the image ids of boxes from different
batches never collide provided every batch appends at least as many
boxes as it has images (e.g. when every image contributes a
ground-truth box); with fewer boxes than images the offset can lag
behind the used indices and ids may collide. -/
theorem relative_index_ids_disjoint (bs : List BoxBatch)
    (hb : ∀ b ∈ bs, b.bsize ≤ b.idxs.length)
    (hidx : ∀ b ∈ bs, ∀ i ∈ b.idxs, i < b.bsize) :
    List.Pairwise (fun A B => ∀ x ∈ A, ∀ y ∈ B, x ≠ y) (passIds bs) :=
  passIdsAux_pairwise bs 0 hb hidx

/-- Witness for C7 (amended): a one-image batch with one box, then a
two-image batch with two boxes. -/
theorem relative_index_ids_disjoint_witness :
    List.Pairwise (fun A B => ∀ x ∈ A, ∀ y ∈ B, x ≠ y)
        (passIds [⟨1, [0]⟩, ⟨2, [0, 1]⟩]) :=
  relative_index_ids_disjoint [⟨1, [0]⟩, ⟨2, [0, 1]⟩]
    (by decide) (by decide)

/-! ### The checkpoint loop of `Trainer.train` (C8) -/

/-- The per-epoch checkpoint decisions of `Trainer.train` (train.py
454-485): `best_value` starts as `None`; after each epoch the current
weights are saved to `current_model.h5`, and exactly when
`best_value is None or val_loss < best_value` that snapshot is copied
to `best_model.h5` and `best_value` becomes this epoch's loss.
`checkpointFlags best losses` returns, one entry per epoch, whether
the copy happened. -/
def checkpointFlags : Option ℚ → List ℚ → List Bool
  | _, [] => []
  | none, l :: ls => true :: checkpointFlags (some l) ls
  | some b, l :: ls =>
      if l < b then true :: checkpointFlags (some l) ls
      else false :: checkpointFlags (some b) ls

lemma checkpointFlags_length : ∀ (best : Option ℚ) (ls : List ℚ),
    (checkpointFlags best ls).length = ls.length
  | _, [] => by cases ‹Option ℚ› <;> rfl
  | none, l :: ls => by
    simp only [checkpointFlags, List.length_cons, checkpointFlags_length]
  | some b, l :: ls => by
    by_cases h : l < b
    · simp only [checkpointFlags, if_pos h, List.length_cons,
        checkpointFlags_length]
    · simp only [checkpointFlags, if_neg h, List.length_cons,
        checkpointFlags_length]

/-- `x` is below a `foldl min` exactly when it is below the seed and
every element. -/
lemma lt_foldl_min : ∀ (t : List ℚ) (b x : ℚ),
    x < t.foldl min b ↔ x < b ∧ ∀ y ∈ t, x < y
  | [], b, x => by simp
  | a :: t, b, x => by
    rw [List.foldl_cons, lt_foldl_min t (min b a) x]
    simp only [lt_min_iff, List.forall_mem_cons]
    tauto

/-- With `best = some b`, epoch `k` copies exactly when its loss beats
the minimum of `b` and all earlier losses. -/
lemma checkpointFlags_some_getD : ∀ (ls : List ℚ) (b : ℚ) (k : ℕ),
    k < ls.length →
    ((checkpointFlags (some b) ls).getD k false = true
      ↔ ls.getD k 0 < (ls.take k).foldl min b)
  | [], b, k => by simp
  | l :: ls, b, 0 => by
    intro _
    by_cases h : l < b
    · simp [checkpointFlags, if_pos h, h]
    · simp [checkpointFlags, if_neg h, h]
  | l :: ls, b, k + 1 => by
    intro hk
    have hk2 : k < ls.length := by simpa using hk
    have hmin : (if l < b then l else b) = min b l := by
      by_cases h : l < b
      · simp [if_pos h, min_eq_right h.le]
      · simp [if_neg h, min_eq_left (not_lt.mp h)]
    have h1 : (checkpointFlags (some b) (l :: ls)).getD (k + 1) false
        = (checkpointFlags (some (if l < b then l else b)) ls).getD k
            false := by
      by_cases h : l < b
      · simp [checkpointFlags, if_pos h]
      · simp [checkpointFlags, if_neg h]
    rw [h1, hmin, checkpointFlags_some_getD ls (min b l) k hk2]
    simp [List.foldl_cons]

/-- **C8.** One checkpoint decision is made per epoch, and the best
artifact is overwritten exactly when the epoch's validation loss is
strictly lower than every previously observed validation loss (for the
first epoch the condition is vacuous, so it always copies). -/
theorem best_model_copy_iff_improvement (losses : List ℚ) (k : ℕ)
    (hk : k < losses.length) :
    (checkpointFlags none losses).length = losses.length
      ∧ ((checkpointFlags none losses).getD k false = true
          ↔ ∀ x ∈ losses.take k, losses.getD k 0 < x) := by
  refine ⟨checkpointFlags_length none losses, ?_⟩
  rcases losses with _ | ⟨l, ls⟩
  · simp at hk
  · rcases k with _ | k
    · simp [checkpointFlags]
    · have hk2 : k < ls.length := by simpa using hk
      have h1 : (checkpointFlags none (l :: ls)).getD (k + 1) false
          = (checkpointFlags (some l) ls).getD k false := rfl
      rw [h1, checkpointFlags_some_getD ls l k hk2, lt_foldl_min]
      simp [List.forall_mem_cons]

/-- Witness for C8: two epochs with losses 2 then 1. -/
theorem best_model_copy_iff_improvement_witness :
    (checkpointFlags none [2, 1]).length = ([2, 1] : List ℚ).length
      ∧ ((checkpointFlags none [2, 1]).getD 1 false = true
          ↔ ∀ x ∈ ([2, 1] : List ℚ).take 1,
              ([2, 1] : List ℚ).getD 1 0 < x) :=
  best_model_copy_iff_improvement [2, 1] 1 (by decide)

end UNet
